import Mathlib

/-!
Verification of the Case Resolution and Cache Subsystem of `powerfulcases`
(`src/powerfulcases/cases.py`), via a shallow embedding.

Pure string manipulation (Python `in`, `split("/")`, `startswith`, indexing)
is embedded over `List Char` (Python strings index by code point).  The
relevant world state (bundled case tree under `CASES_DIR`, local directories,
remote registry listing, cache) is a record `FS`; the directory tree is
modelled symlink-free and two levels deep, matching the shipped
`cases/<collection>/<case>` layout, so `Path.resolve` is the identity and the
`resolve().is_relative_to(...)` guards of the source are identically true.
The modules `manifest.py`, `cache.py` and `registry.py` are not part of the
sources; the few helpers taken from them are modelled from the spec and
marked as such.
-/

namespace PowerfulCases

instance [DecidableEq ε] [DecidableEq α] : DecidableEq (Except ε α) := fun x y =>
  match x, y with
  | .ok a, .ok b =>
    if h : a = b then .isTrue (by rw [h])
    else .isFalse (fun he => h (by cases he; rfl))
  | .ok _, .error _ => .isFalse (fun he => Except.noConfusion he)
  | .error _, .ok _ => .isFalse (fun he => Except.noConfusion he)
  | .error e, .error f =>
    if h : e = f then .isTrue (by rw [h])
    else .isFalse (fun he => h (by cases he; rfl))

/-- Python `pre.isPrefixOf l` on code-point lists: embedding of `str.startswith`. -/
def startsWithList [DecidableEq α] : List α → List α → Bool
  | [], _ => true
  | _ :: _, [] => false
  | p :: ps, x :: xs => if p = x then startsWithList ps xs else false

/-- Embedding of Python substring containment `pat in s` on code-point lists. -/
def containsSub [DecidableEq α] : List α → List α → Bool
  | pat, [] => startsWithList pat []
  | pat, x :: xs => startsWithList pat (x :: xs) || containsSub pat xs

/-- Python `pat in s` for strings. -/
def strContains (s pat : String) : Bool := containsSub pat.data s.data

/-- Python `s.startswith(pre)`. -/
def pyStartsWith (s pre : String) : Bool := startsWithList pre.data s.data

/-- Python `s.split(sep)` for a one-character separator, over the char list. -/
def splitOnChar (sep : Char) : List Char → List (List Char)
  | [] => [[]]
  | c :: cs =>
    let r := splitOnChar sep cs
    if c = sep then [] :: r
    else match r with
      | h :: t => (c :: h) :: t
      | [] => [[c]]

/-- Python `s.split("/")`. -/
def pySplitSlash (s : String) : List String :=
  (splitOnChar '/' s.data).map (fun l => ⟨l⟩)

/-- Python `len(s) > 1 and s[1] == ":"` (the drive-letter check). -/
def secondCharColon (s : String) : Bool :=
  match s.data with
  | _ :: x :: _ => x = ':'
  | _ => false

/-- Python `"/".join`-style path rendering used for reported paths. -/
def joinPath (segs : List String) : String := String.intercalate "/" segs

/-! ## Manifest model (consumed read-only; produced by the external parser) -/

/-- A `files` entry of a manifest (see the spec's Manifest data model). -/
structure FileEntry where
  path : String
  format : String
  format_version : Option String
  variant : Option String
  default : Bool
  includes : List String
  deriving DecidableEq

/-- In-memory manifest: files plus optional collection and tags.
Credits are irrelevant to every claim and omitted. -/
structure Manifest where
  files : List FileEntry
  collection : Option String
  tags : List String
  deriving DecidableEq

def emptyManifest : Manifest := ⟨[], none, []⟩

/-- Modelled from the spec: `file_entry` of the missing `manifest.py` —
"Searches the bundle's Manifest for an entry matching format and, if given,
version and variant exactly." -/
def file_entry (m : Manifest) (format : String) (format_version variant : Option String) :
    Option FileEntry :=
  m.files.find? fun e =>
    e.format == format
      && (format_version == none || e.format_version == format_version)
      && (variant == none || e.variant == variant)

/-- Modelled from the spec: `get_default_file` of the missing `manifest.py` —
the entry marked default for the format; if none is marked, the first entry
matching the format. -/
def get_default_file (m : Manifest) (format : String) : Option FileEntry :=
  match m.files.find? (fun e => e.format == format && e.default) with
  | some e => some e
  | none => m.files.find? (fun e => e.format == format)

/-- Order-preserving deduplication (first occurrence kept). -/
def dedupFirst [DecidableEq α] : List α → List α
  | [] => []
  | a :: l => a :: (dedupFirst l).filter (fun b => b ≠ a)

/-- Modelled from the spec: `formats` of the missing `manifest.py` — the
format names appearing in the manifest. -/
def manifestFormats (m : Manifest) : List String :=
  dedupFirst (m.files.map (·.format))

/-- Modelled from the spec: `variants` of the missing `manifest.py` — the
variant names available for a format. -/
def manifestVariants (m : Manifest) (format : String) : List String :=
  dedupFirst ((m.files.filter (fun e => e.format == format)).filterMap (·.variant))

/-! ## World state -/

/-- A case directory nested inside a top-level directory of `CASES_DIR`.
`manifest = some m`: a `manifest.toml` is present and parses to `m`;
`inferred` is what `infer_manifest` would build from the files. -/
structure SubDir where
  name : String
  manifest : Option Manifest
  inferred : Manifest
  deriving DecidableEq

/-- A directory directly under `CASES_DIR` (a collection, or a legacy flat
case directory; the source treats both uniformly). -/
structure TopDir where
  name : String
  manifest : Option Manifest
  inferred : Manifest
  subdirs : List SubDir
  deriving DecidableEq

/-- An existing local directory, keyed by the exact string under which
`Path(name_or_path).is_dir()` holds. -/
structure LocalDir where
  key : String
  dirName : String
  absPath : List String
  manifest : Option Manifest
  inferred : Manifest
  deriving DecidableEq

/-- A downloadable / cached case directory, keyed by the registry path. -/
structure CacheEntry where
  key : String
  absPath : List String
  manifest : Option Manifest
  inferred : Manifest
  deriving DecidableEq

/-- The world state visible to the resolver: local directories, the bundled
tree under `CASES_DIR`, the remote registry listing, the cache contents, the
post-download contents each remote path would produce, and the cached names
reported by `list_cached_cases`. -/
structure FS where
  localDirs : List LocalDir
  casesTree : List TopDir
  remoteCases : List String
  cache : List CacheEntry
  remoteDirs : List CacheEntry
  cachedNames : List String
  deriving DecidableEq

/-- Segments of `CASES_DIR` (package-internal `.../powerfulcases/cases`). -/
def CASES_SEG : List String := ["powerfulcases", "cases"]

/-! ## Resolved bundles and errors -/

/-- `CaseBundle` of the source: name, directory, owned manifest, remoteness. -/
structure CaseBundle where
  name : String
  dir : List String
  manifest : Manifest
  is_remote : Bool
  deriving DecidableEq

/-- The `ValueError`s the resolver can raise, with their message data. -/
inductive LoadError where
  | emptyComponent : LoadError
  | traversalComponent (component : String) : LoadError
  | absoluteComponent (component : String) : LoadError
  | ambiguous (name : String) (sources : List String) : LoadError
  | ambiguousRemote (name : String) (found : List String) : LoadError
  | unknown (name : String) (available : List String) : LoadError
  | registryMissing (path : String) : LoadError
  deriving DecidableEq

/-- Python `repr` of a list of strings, as interpolated into error messages. -/
def pyListRepr (xs : List String) : String :=
  "[" ++ String.intercalate ", " (xs.map (fun s => "'" ++ s ++ "'")) ++ "]"

/-- The exact message text each `ValueError` is raised with. -/
def LoadError.message : LoadError → String
  | .emptyComponent => "Path component cannot be empty"
  | .traversalComponent c =>
      "Invalid path component: '" ++ c ++ "' contains path separators or '..'"
  | .absoluteComponent c =>
      "Invalid path component: '" ++ c ++ "' is an absolute path"
  | .ambiguous name sources =>
      "Ambiguous case name '" ++ name ++ "' found in multiple locations: "
        ++ pyListRepr sources ++ ". Use 'collection/case' format to specify."
  | .ambiguousRemote name found =>
      "Ambiguous remote case '" ++ name ++ "' found in multiple collections: "
        ++ pyListRepr found
  | .unknown name available =>
      "Unknown case: '" ++ name ++ "'. Available: "
        ++ String.intercalate ", " (available.take 10)
  | .registryMissing p => "registry has no content for '" ++ p ++ "'"

/-! ## Python dict, as used by `cases()` (`result = {}`; insertion-ordered) -/

/-- The value stored per case name by `cases()`: `(collection, tags)`. -/
def CaseRec := Option String × List String

instance : DecidableEq CaseRec := by
  unfold CaseRec
  infer_instance

/-- Python `d[k] = v`: replace in place, or append a new binding. -/
def dictSet : List (String × CaseRec) → String × CaseRec → List (String × CaseRec)
  | [], kv => [kv]
  | p :: d, kv => if p.1 = kv.1 then kv :: d else p :: dictSet d kv

/-- Python `if k not in d: d[k] = v`. -/
def dictSetIfAbsent : List (String × CaseRec) → String × CaseRec → List (String × CaseRec)
  | [], kv => [kv]
  | p :: d, kv => if p.1 = kv.1 then p :: d else p :: dictSetIfAbsent d kv

/-- Python `d.get(k)`. -/
def dictLookup : List (String × CaseRec) → String → Option CaseRec
  | [], _ => none
  | p :: d, k => if p.1 = k then some p.2 else dictLookup d k

def concatMap (f : α → List β) : List α → List β
  | [] => []
  | a :: l => f a ++ concatMap f l

/-- Well-formedness of a dict rendering: keys occur at most once. -/
def KeysNodup (d : List (String × CaseRec)) : Prop := (d.map (·.1)).Nodup

/-! ## `cases()` — the list of available case names

The recursive `rglob("manifest.toml")` scan, the manifest-less scan, the
remote pass and the cached pass are each rendered as the list of dict writes
they perform, in scan order (per top-level directory: its own manifest first,
then its subdirectories', as in a top-down walk); the passes are then folded
with the dict operation the source uses (`d[k] = v` for the manifest pass,
guarded insert for the rest). -/

/-- Writes of the manifest scan: every `manifest.toml` found recursively,
skipped when the case directory name is hidden; collection = parent directory
unless that parent is `CASES_DIR` itself.  A manifest whose parse raises is
recorded with empty tags by the source; that is the `some ⟨_, _, []⟩` case
here. -/
def manifestWrites (tree : List TopDir) : List (String × CaseRec) :=
  concatMap (fun t =>
    (match t.manifest with
     | some m => if pyStartsWith t.name "." then [] else [(t.name, (none, m.tags))]
     | none => []) ++
    concatMap (fun s =>
      match s.manifest with
      | some m => if pyStartsWith s.name "." then [] else [(s.name, (some t.name, m.tags))]
      | none => []) t.subdirs) tree

/-- Writes of the manifest-less pass: every subdirectory of every non-hidden
top-level directory, with empty tags. -/
def inferWrites (tree : List TopDir) : List (String × CaseRec) :=
  concatMap (fun t =>
    if pyStartsWith t.name "." then []
    else t.subdirs.map (fun s => (s.name, (some t.name, ([] : List String))))) tree

/-- Trailing path segment of a registry path (`parts[-1]`, or the path). -/
def trailingSegment (rp : String) : String :=
  if strContains rp "/" then (pySplitSlash rp).getLastD rp else rp

/-- Writes of the remote-registry pass of `cases()`. -/
def remoteWrites (remoteCases : List String) : List (String × CaseRec) :=
  remoteCases.map (fun rp =>
    if strContains rp "/" then
      (trailingSegment rp, (some ((pySplitSlash rp).headD rp), []))
    else (rp, (none, [])))

/-- Writes of the cached pass of `cases()`. -/
def cachedWrites (cachedNames : List String) : List (String × CaseRec) :=
  cachedNames.map (fun n => (n, (none, [])))

/-- The `result` dict of `cases()` after all four passes. -/
def casesDict (fs : FS) : List (String × CaseRec) :=
  let d1 := (manifestWrites fs.casesTree).foldl dictSet []
  let d2 := (inferWrites fs.casesTree).foldl dictSetIfAbsent d1
  let d3 := (remoteWrites fs.remoteCases).foldl dictSetIfAbsent d2
  (cachedWrites fs.cachedNames).foldl dictSetIfAbsent d3

/-- The filter loop of `cases()`, as a boolean predicate on one binding. -/
def casesFilter (collection tag : Option String) (p : String × CaseRec) : Bool :=
  (match collection with
   | none => true
   | some c => p.2.1 == some c)
  && (match tag with
      | none => true
      | some t => p.2.2.contains t)

/-- `cases(collection, tag)`: build the dict, filter, return `sorted(...)`. -/
def cases (fs : FS) (collection tag : Option String) : List String :=
  let filtered := (casesDict fs).filter (casesFilter collection tag)
  List.insertionSort (· ≤ ·) (filtered.map (·.1))

/-! ## Path safety -/

/-- `_validate_path_component`: reject empty components, traversal patterns
and absolute / drive-letter components, with the source's messages. -/
def _validate_path_component (component : String) : Except LoadError Unit :=
  if component = "" then .error .emptyComponent
  else if strContains component ".." || strContains component "/"
      || strContains component "\\" then
    .error (.traversalComponent component)
  else if pyStartsWith component "/" || secondCharColon component then
    .error (.absoluteComponent component)
  else .ok ()

/-- `_is_safe_subpath`, parametrised by a resolution oracle: `resolve p = none`
models `Path.resolve` raising `OSError`/`ValueError` (broken symlink,
permission denial), `some q` the fully resolved path; `is_relative_to` on
resolved absolute paths is the segment-prefix test. -/
def _is_safe_subpath (resolve : List String → Option (List String))
    (child parent : List String) : Bool :=
  match resolve child with
  | none => false
  | some c =>
    match resolve parent with
    | none => false
    | some p => p.isPrefixOf c

/-! ## Bundled and remote search -/

/-- One bundled match of the global bare-name search, with the collection
name exactly as `load` later renders it (`"(root)"` at the legacy flat top
level). -/
structure BundledMatch where
  coll : String
  dirPath : List String
  manifest : Option Manifest
  inferred : Manifest
  deriving DecidableEq

/-- The match collection loop of `_find_case_in_collections` (the tree is
symlink-free, so the `resolve().is_relative_to` guards hold): the top-level
check, then every non-hidden top-level directory containing the name. -/
def bundledMatchesOf (tree : List TopDir) (case_name : String) : List BundledMatch :=
  (match tree.find? (·.name == case_name) with
   | some t => [⟨"(root)", CASES_SEG ++ [case_name], t.manifest, t.inferred⟩]
   | none => []) ++
  concatMap (fun t =>
    if pyStartsWith t.name "." then []
    else match t.subdirs.find? (·.name == case_name) with
      | some s => [⟨t.name, CASES_SEG ++ [t.name, case_name], s.manifest, s.inferred⟩]
      | none => []) tree

/-- `_find_case_in_collections`: validate the name, then collect matches. -/
def _find_case_in_collections (tree : List TopDir) (case_name : String) :
    Except LoadError (List BundledMatch) :=
  match _validate_path_component case_name with
  | .error e => .error e
  | .ok _ => .ok (bundledMatchesOf tree case_name)

/-- The remote registry entries whose trailing segment equals the name. -/
def remoteNameMatches (remoteCases : List String) (case_name : String) : List String :=
  remoteCases.filter (fun rp => trailingSegment rp == case_name)

/-- `_find_remote_case_by_name`: at most one remote match is returned; two or
more raise the ambiguous-remote `ValueError` listing only the remote paths. -/
def _find_remote_case_by_name (remoteCases : List String) (case_name : String) :
    Except LoadError (Option String) :=
  let ms := remoteNameMatches remoteCases case_name
  if ms.length > 1 then .error (.ambiguousRemote case_name ms)
  else .ok ms.head?

/-! ## Loading -/

/-- Modelled from the spec: the cache membership test `is_cached` of the
missing `cache.py`. -/
def is_case_cached (fs : FS) (p : String) : Bool :=
  fs.cache.any (·.key == p)

/-- Modelled from the spec: the registry client membership test
`is_remote(name_or_path)` of the missing `registry.py`. -/
def is_remote_case (fs : FS) (p : String) : Bool :=
  fs.remoteCases.contains p

/-- `_load_remote_case`: download when not cached (the downloaded contents are
the `remoteDirs` oracle, modelled from the spec since `registry.py` is not in
the sources), read the manifest (parsed if present, else inferred), name the
bundle by the trailing segment. -/
def _load_remote_case (fs : FS) (p : String) : Except LoadError CaseBundle :=
  let entry? := if is_case_cached fs p then fs.cache.find? (·.key == p)
                else fs.remoteDirs.find? (·.key == p)
  match entry? with
  | none => .error (.registryMissing p)
  | some e =>
    .ok ⟨trailingSegment p, e.absPath, e.manifest.getD e.inferred, true⟩

/-- The transient match tuples of step 3 of `load`. -/
inductive MatchT where
  | bundled (m : BundledMatch)
  | remote (coll : String) (path : String)
  deriving DecidableEq

/-- The `f"{source_type}:{coll}"` rendering of a match. -/
def MatchT.sourceColl : MatchT → String
  | .bundled m => "bundled:" ++ m.coll
  | .remote c _ => "remote:" ++ c

/-- Collection shown for a remote match (`parts[0]`, or `"(root)"`). -/
def remoteCollOf (rp : String) : String :=
  if strContains rp "/" then (pySplitSlash rp).headD rp else "(root)"

/-- The match list of step 3 of `load`: bundled matches first, then the at
most one remote match, each tagged with its origin and collection. -/
def combineMatches (bms : List BundledMatch) (r? : Option String) : List MatchT :=
  bms.map MatchT.bundled
    ++ (match r? with
        | some rp => [MatchT.remote (remoteCollOf rp) rp]
        | none => [])

/-- Steps 4-6 of `load`: the ambiguity check over the collected matches, the
single-match load, and the unknown-case fallback. -/
def _resolve_matches (fs : FS) (name_or_path : String) (ms : List MatchT) :
    Except LoadError CaseBundle :=
  if ms.length > 1 then
    .error (.ambiguous name_or_path (ms.map MatchT.sourceColl))
  else
    match ms with
    | [MatchT.bundled m] =>
      .ok ⟨name_or_path, m.dirPath, m.manifest.getD m.inferred, false⟩
    | [MatchT.remote _ rp] => _load_remote_case fs rp
    | _ => .error (.unknown name_or_path (cases fs none none))

/-- Steps 3-6 of `load`: the global bare-name search over bundled collections
and the remote registry, then the ambiguity check. -/
def _bare_name_search (fs : FS) (name_or_path : String) : Except LoadError CaseBundle :=
  match _find_case_in_collections fs.casesTree name_or_path with
  | .error e => .error e
  | .ok bms =>
    match _find_remote_case_by_name fs.remoteCases name_or_path with
    | .error e => .error e
    | .ok r? => _resolve_matches fs name_or_path (combineMatches bms r?)

/-- Validation of every segment of a `collection/case` input, in order. -/
def validateAll : List String → Except LoadError Unit
  | [] => .ok ()
  | p :: ps =>
    match _validate_path_component p with
    | .error e => .error e
    | .ok _ => validateAll ps

/-- `CASES_DIR.joinpath(*parts).is_dir()` over the two-level bundled tree
(the shipped layout): a directory exists exactly for `[collection, case]`
resolving in the tree. -/
def lookupBundled (tree : List TopDir) : List String → Option (Option Manifest × Manifest)
  | [c, s] =>
    match tree.find? (·.name == c) with
    | some t => (t.subdirs.find? (·.name == s)).map (fun sd => (sd.manifest, sd.inferred))
    | none => none
  | _ => none

/-- `load(name_or_path)`: local directory first, then `collection/case`
(bundled preferred, remote fallback), then the global bare-name search. -/
def load (fs : FS) (name_or_path : String) : Except LoadError CaseBundle :=
  match fs.localDirs.find? (·.key == name_or_path) with
  | some d => .ok ⟨d.dirName, d.absPath, d.manifest.getD d.inferred, false⟩
  | none =>
    if strContains name_or_path "/" then
      let parts := pySplitSlash name_or_path
      match validateAll parts with
      | .error e => .error e
      | .ok _ =>
        match lookupBundled fs.casesTree parts with
        | some (m?, inf) =>
          .ok ⟨parts.getLastD name_or_path, CASES_SEG ++ parts, m?.getD inf, false⟩
        | none =>
          if is_remote_case fs name_or_path then _load_remote_case fs name_or_path
          else _bare_name_search fs name_or_path
    else _bare_name_search fs name_or_path

/-! ## File locator -/

/-- `_normalize_format`: the two legacy aliases. -/
def _normalize_format (format : String) : String :=
  if format = "raw" then "psse_raw"
  else if format = "dyr" then "psse_dyr"
  else format

/-- The `FileNotFoundError` raised by the locator, with its message data:
the requested format as given, the requested variant/version, the case name,
and the enumerated alternatives. -/
inductive FileError where
  | variantNotFound (format variant caseName : String) (availableVariants : List String)
  | versionNotFound (format version caseName : String) (availableFormats : List String)
  | formatNotFound (format caseName : String) (availableFormats : List String)
  deriving DecidableEq

/-- The exact message text of each `FileNotFoundError`. -/
def FileError.message : FileError → String
  | .variantNotFound f v cn av =>
      "File not found for format '" ++ f ++ "' with variant '" ++ v ++ "' in case '"
        ++ cn ++ "'. Available variants: " ++ String.intercalate ", " av
  | .versionNotFound f ver cn av =>
      "File not found for format '" ++ f ++ "' with version '" ++ ver ++ "' in case '"
        ++ cn ++ "'. Available formats: " ++ String.intercalate ", " av
  | .formatNotFound f cn av =>
      "File not found for format '" ++ f ++ "' in case '" ++ cn
        ++ "'. Available formats: " ++ String.intercalate ", " av

/-- The requested-format field echoed in the message. -/
def FileError.requestedFormat : FileError → String
  | .variantNotFound f _ _ _ => f
  | .versionNotFound f _ _ _ => f
  | .formatNotFound f _ _ => f

/-- Replace the requested-format field echoed in the message. -/
def FileError.withRequestedFormat (f : String) : FileError → FileError
  | .variantNotFound _ v cn av => .variantNotFound f v cn av
  | .versionNotFound _ ver cn av => .versionNotFound f ver cn av
  | .formatNotFound _ cn av => .formatNotFound f cn av

/-- `file(case, format, format_version, variant, required)`: normalize the
alias, look up an exact entry, fall back to the default only when neither
version nor variant was requested, and otherwise raise (or return `None`).
A successful result is the bundle directory joined with the entry path. -/
def file (c : CaseBundle) (format : String) (format_version variant : Option String)
    (required : Bool) : Except FileError (Option (List String)) :=
  let actual_format := _normalize_format format
  let entry :=
    match file_entry c.manifest actual_format format_version variant with
    | some e => some e
    | none =>
      if variant == none && format_version == none then
        get_default_file c.manifest actual_format
      else none
  match entry with
  | some e => .ok (some (c.dir ++ [e.path]))
  | none =>
    if required then
      match variant with
      | some v =>
        .error (.variantNotFound format v c.name (manifestVariants c.manifest actual_format))
      | none =>
        match format_version with
        | some ver => .error (.versionNotFound format ver c.name (manifestFormats c.manifest))
        | none => .error (.formatNotFound format c.name (manifestFormats c.manifest))
    else .ok none

/-! ## Export -/

def PROGRESS_THRESHOLD_BYTES : Nat := 100 * 1024 * 1024

/-- The destination filesystem seen by `export_case`: each existing directory
path maps to its recursive file listing (relative path, byte size), the
flattened view `os.walk`/`copytree` operate on. -/
structure ExportWorld where
  fs : FS
  disk : List (List String × List (String × Nat))
  deriving DecidableEq

def diskLookup : List (List String × List (String × Nat)) → List String →
    Option (List (String × Nat))
  | [], _ => none
  | q :: d, p => if q.1 = p then some q.2 else diskLookup d p

def diskSet : List (List String × List (String × Nat)) → List String →
    List (String × Nat) → List (List String × List (String × Nat))
  | [], p, files => [(p, files)]
  | q :: d, p, files => if q.1 = p then (p, files) :: d else q :: diskSet d p files

inductive ExportError where
  | loadFailed (e : LoadError)
  | alreadyExists (msg : String)
  deriving DecidableEq

/-- `export_case(case_name, dest, overwrite)`: resolve, refuse an existing
destination without `overwrite` (before any mutation — the size walk is
read-only), otherwise remove any existing destination and copy the source
tree whole.  Returns the raised error or the reported path, together with the
destination filesystem afterwards. -/
def export_case (w : ExportWorld) (case_name : String) (dest : List String)
    (overwrite : Bool) :
    Except ExportError String × List (List String × List (String × Nat)) :=
  match load w.fs case_name with
  | .error e => (.error (.loadFailed e), w.disk)
  | .ok c =>
    let dest_dir := dest ++ [c.name]
    let existing := diskLookup w.disk dest_dir
    if existing.isSome && !overwrite then
      (.error (.alreadyExists ("Directory exists: " ++ joinPath dest_dir
          ++ "\nUse overwrite=True to replace existing directory")), w.disk)
    else
      let srcFiles := (diskLookup w.disk c.dir).getD []
      (.ok (joinPath dest_dir), diskSet w.disk dest_dir srcFiles)

/-! ## Legacy accessors -/

/-- The deprecation text emitted on the first call per case name. -/
def deprecationMessage (name : String) : String :=
  name ++ "() is deprecated. Use load('" ++ name ++ "') instead.\n\nOld API:\n  case = "
    ++ name ++ "()\n  case.raw\n\nNew API:\n  case = load('" ++ name ++ "')\n  case.raw"

/-- The closure produced by `_make_legacy_case_fn`, with the process-wide
`_deprecation_warned` set passed explicitly: returns the `load` result, the
warnings emitted by this call, and the updated warned set. -/
def legacyCaseCall (name : String) (warned : List String) (fs : FS) :
    Except LoadError CaseBundle × List String × List String :=
  if warned.contains name then (load fs name, [], warned)
  else (load fs name, [deprecationMessage name], name :: warned)

def ieee14 (warned : List String) (fs : FS) := legacyCaseCall "ieee14" warned fs

def ieee39 (warned : List String) (fs : FS) := legacyCaseCall "ieee39" warned fs

def ieee118 (warned : List String) (fs : FS) := legacyCaseCall "ieee118" warned fs

def ACTIVSg2000 (warned : List String) (fs : FS) := legacyCaseCall "ACTIVSg2000" warned fs

def ACTIVSg10k (warned : List String) (fs : FS) := legacyCaseCall "ACTIVSg10k" warned fs

def ACTIVSg70k (warned : List String) (fs : FS) := legacyCaseCall "ACTIVSg70k" warned fs

def case5 (warned : List String) (fs : FS) := legacyCaseCall "case5" warned fs

def case9 (warned : List String) (fs : FS) := legacyCaseCall "case9" warned fs

def npcc (warned : List String) (fs : FS) := legacyCaseCall "npcc" warned fs

def two_bus_branch (warned : List String) (fs : FS) :=
  legacyCaseCall "two_bus_branch" warned fs

def two_bus_transformer (warned : List String) (fs : FS) :=
  legacyCaseCall "two_bus_transformer" warned fs

def ieee14_fault (warned : List String) (fs : FS) := legacyCaseCall "ieee14_fault" warned fs

def ieee14_island (warned : List String) (fs : FS) :=
  legacyCaseCall "ieee14_island" warned fs

def ieee39_nopq31 (warned : List String) (fs : FS) :=
  legacyCaseCall "ieee39_nopq31" warned fs

def ieee39_rt (warned : List String) (fs : FS) := legacyCaseCall "ieee39_rt" warned fs

/-! ## `CaseBundle.collection` -/

/-- Python truthiness of the optional manifest `collection` field. -/
def truthyCollection : Option String → Bool
  | some c => !(c = "")
  | none => false

/-- Name of the parent directory of a path given as segments
(`Path(dir).parent.name`). -/
def parentName (dir : List String) : String := dir.dropLast.getLastD ""

/-- The `collection` property: the manifest field when truthy, else inferred
from the layout — the parent directory name unless that parent is the legacy
flat `"cases"` top level. -/
def CaseBundle.collection (b : CaseBundle) : Option String :=
  if truthyCollection b.manifest.collection then b.manifest.collection
  else if parentName b.dir = "cases" then none
  else some (parentName b.dir)

/-! ## Spec-side notions used to state the claims -/

/-- Every `(source, collection)` pair the global search finds for a bare
name, across the union of bundled collections and the remote registry — the
set the spec requires an ambiguity error to enumerate. -/
def unionPairs (fs : FS) (name : String) : List (String × String) :=
  (bundledMatchesOf fs.casesTree name).map (fun m => ("bundled", m.coll))
    ++ (remoteNameMatches fs.remoteCases name).map (fun rp => ("remote", remoteCollOf rp))

def optOr (a b : Option α) : Option α :=
  match a with
  | some x => some x
  | none => b

/-- First write for a key in a pass's write list. -/
def firstWrite (ws : List (String × CaseRec)) (k : String) : Option CaseRec :=
  (ws.find? (·.1 = k)).map (·.2)

/-- Last write for a key in a pass's write list. -/
def lastWrite (ws : List (String × CaseRec)) (k : String) : Option CaseRec :=
  firstWrite ws.reverse k

/-- The per-name record `cases()` actually ends up with: within the manifest
scan the last manifest seen for a name wins; each later source (manifest-less
subdirectories, remote registry, cache) only fills in absent names. -/
def specRecord (fs : FS) (n : String) : Option CaseRec :=
  optOr (lastWrite (manifestWrites fs.casesTree) n)
    (optOr (firstWrite (inferWrites fs.casesTree) n)
      (optOr (firstWrite (remoteWrites fs.remoteCases) n)
        (firstWrite (cachedWrites fs.cachedNames) n)))

/-- The collection filter of `cases`, as the spec states it. -/
def collPred (collection : Option String) (v : CaseRec) : Prop :=
  match collection with
  | none => True
  | some c => v.1 = some c

/-- The tag filter of `cases`, as the spec states it. -/
def tagPred (tag : Option String) (v : CaseRec) : Prop :=
  match tag with
  | none => True
  | some t => t ∈ v.2

/-- The claim's version of `cases()`, following the spec's words: identical
pipeline except that the merge lets the FIRST-seen collection and tags win in
every pass, including the manifest scan. -/
def casesSpecFirstSeen (fs : FS) (collection tag : Option String) : List String :=
  let d1 := (manifestWrites fs.casesTree).foldl dictSetIfAbsent []
  let d2 := (inferWrites fs.casesTree).foldl dictSetIfAbsent d1
  let d3 := (remoteWrites fs.remoteCases).foldl dictSetIfAbsent d2
  let d4 := (cachedWrites fs.cachedNames).foldl dictSetIfAbsent d3
  List.insertionSort (· ≤ ·) ((d4.filter (casesFilter collection tag)).map (·.1))

/-! ## Concrete fixtures for counterexamples and witnesses -/

/-- A world whose bare name `x` is bundled in `collA` and listed remotely in
both `collB` and `collC`. -/
def fsC1x : FS :=
  { localDirs := []
    casesTree := [⟨"collA", none, emptyManifest, [⟨"x", none, emptyManifest⟩]⟩]
    remoteCases := ["collB/x", "collC/x"]
    cache := []
    remoteDirs := []
    cachedNames := [] }

/-- A world whose bare name `y` is bundled in two collections. -/
def fsC1w : FS :=
  { localDirs := []
    casesTree :=
      [⟨"collA", none, emptyManifest, [⟨"y", none, emptyManifest⟩]⟩,
       ⟨"collB", none, emptyManifest, [⟨"y", none, emptyManifest⟩]⟩]
    remoteCases := []
    cache := []
    remoteDirs := []
    cachedNames := [] }

/-- A world in which case `x` carries a manifest in two collections: the
first one seen tags it `t1`, the second leaves it untagged. -/
def fsC5x : FS :=
  { localDirs := []
    casesTree :=
      [⟨"collA", none, emptyManifest, [⟨"x", some ⟨[], none, ["t1"]⟩, emptyManifest⟩]⟩,
       ⟨"collB", none, emptyManifest, [⟨"x", some ⟨[], none, []⟩, emptyManifest⟩]⟩]
    remoteCases := []
    cache := []
    remoteDirs := []
    cachedNames := [] }

/-- A bundle with an empty manifest, used to exercise the locator's
not-found branches. -/
def emptyBundle : CaseBundle := ⟨"w", ["d", "w"], emptyManifest, false⟩

/-- A world for export: `ez` is bundled at the flat top level, its directory
holds one file, and the destination `out/ez` already holds other files. -/
def ewC6 : ExportWorld :=
  { fs :=
      { localDirs := []
        casesTree := [⟨"ez", some emptyManifest, emptyManifest, []⟩]
        remoteCases := []
        cache := []
        remoteDirs := []
        cachedNames := [] }
    disk :=
      [(CASES_SEG ++ ["ez"], [("ez.raw", 10)]),
       (["out", "ez"], [("old.txt", 5), ("stale.raw", 7)])] }

/-- A resolution oracle with one symlink: `root/link` resolves outside
`root`; everything else resolves to itself. -/
def symlinkResolve : List String → Option (List String) :=
  fun p => if p = ["root", "link"] then some ["outside"] else some p

/-- A resolution oracle for which resolving `["broken"]` raises. -/
def brokenResolve : List String → Option (List String) :=
  fun p => if p = ["broken"] then none else some p

/-! # Helper lemmas -/

theorem startsWithList_iff [DecidableEq α] (p l : List α) :
    startsWithList p l = true ↔ p <+: l := by
  induction p generalizing l with
  | nil => simp [startsWithList]
  | cons a p ih =>
    cases l with
    | nil => simp [startsWithList]
    | cons b l' =>
      simp only [startsWithList, List.cons_prefix_cons]
      by_cases h : a = b
      · simp [h, ih]
      · simp [h]

theorem containsSub_iff [DecidableEq α] (pat l : List α) :
    containsSub pat l = true ↔ pat <:+: l := by
  induction l with
  | nil => simp [containsSub, startsWithList_iff]
  | cons x xs ih =>
    simp only [containsSub, Bool.or_eq_true, startsWithList_iff, ih]
    exact (List.infix_cons_iff).symm

theorem containsSub_singleton_iff [DecidableEq α] (a : α) (l : List α) :
    containsSub [a] l = true ↔ a ∈ l := by
  rw [containsSub_iff]
  constructor
  · intro h
    exact (List.singleton_sublist).mp h.sublist
  · intro h
    obtain ⟨s, t, rfl⟩ := List.append_of_mem h
    exact ⟨s, t, by simp⟩

theorem startsWithList_singleton_iff [DecidableEq α] (a : α) (l : List α) :
    startsWithList [a] l = true ↔ l.head? = some a := by
  cases l with
  | nil => simp [startsWithList]
  | cons b l' =>
    simp only [startsWithList, List.head?]
    by_cases h : a = b <;> simp [h, startsWithList, eq_comm]

theorem secondCharColon_iff (s : String) :
    secondCharColon s = true ↔ s.data.get? 1 = some ':' := by
  unfold secondCharColon
  match s.data with
  | [] => simp
  | [_] => simp
  | _ :: x :: _ =>
    by_cases h : x = ':' <;> simp [h, List.get?]

theorem optOr_none (a : Option α) : optOr a none = a := by
  cases a <;> rfl

theorem optOr_assoc (a b c : Option α) :
    optOr (optOr a b) c = optOr a (optOr b c) := by
  cases a <;> rfl

theorem dictLookup_dictSet (d : List (String × CaseRec)) (kv : String × CaseRec)
    (k : String) :
    dictLookup (dictSet d kv) k = if kv.1 = k then some kv.2 else dictLookup d k := by
  induction d with
  | nil => simp [dictSet, dictLookup]
  | cons p d ih =>
    simp only [dictSet]
    by_cases h : p.1 = kv.1
    · rw [if_pos h]
      by_cases h2 : kv.1 = k
      · simp [dictLookup, h2]
      · have hpk : ¬ p.1 = k := fun e => h2 (h ▸ e)
        simp [dictLookup, h2, hpk]
    · rw [if_neg h]
      by_cases h2 : p.1 = k
      · have hk : ¬ kv.1 = k := fun e => h (h2.trans e.symm)
        simp [dictLookup, h2, hk]
      · simp [dictLookup, h2, ih]

theorem dictLookup_dictSetIfAbsent (d : List (String × CaseRec)) (kv : String × CaseRec)
    (k : String) :
    dictLookup (dictSetIfAbsent d kv) k
      = optOr (dictLookup d k) (if kv.1 = k then some kv.2 else none) := by
  induction d with
  | nil => simp [dictSetIfAbsent, dictLookup, optOr]
  | cons p d ih =>
    simp only [dictSetIfAbsent]
    by_cases h : p.1 = kv.1
    · rw [if_pos h]
      by_cases h2 : p.1 = k
      · simp [dictLookup, h2, optOr]
      · have hk : ¬ kv.1 = k := fun e => h2 (h.trans e)
        simp [dictLookup, h2, hk, optOr_none]
    · rw [if_neg h]
      by_cases h2 : p.1 = k
      · simp [dictLookup, h2, optOr]
      · simp [dictLookup, h2, ih]

theorem firstWrite_cons (w : String × CaseRec) (ws : List (String × CaseRec)) (k : String) :
    firstWrite (w :: ws) k = if w.1 = k then some w.2 else firstWrite ws k := by
  by_cases h : w.1 = k
  · simp [firstWrite, List.find?_cons_of_pos, h]
  · simp [firstWrite, List.find?_cons_of_neg, h]

theorem firstWrite_append (ws₁ ws₂ : List (String × CaseRec)) (k : String) :
    firstWrite (ws₁ ++ ws₂) k = optOr (firstWrite ws₁ k) (firstWrite ws₂ k) := by
  induction ws₁ with
  | nil => simp [firstWrite, optOr]
  | cons w ws ih =>
    rw [List.cons_append, firstWrite_cons, firstWrite_cons, ih]
    by_cases h : w.1 = k <;> simp [h, optOr]

theorem lastWrite_cons (w : String × CaseRec) (ws : List (String × CaseRec)) (k : String) :
    lastWrite (w :: ws) k = optOr (lastWrite ws k) (if w.1 = k then some w.2 else none) := by
  unfold lastWrite
  rw [List.reverse_cons, firstWrite_append]
  congr 1
  rw [firstWrite_cons]
  by_cases h : w.1 = k <;> simp [h, firstWrite]

theorem lookup_foldl_dictSet (ws : List (String × CaseRec)) (d : List (String × CaseRec))
    (k : String) :
    dictLookup (ws.foldl dictSet d) k = optOr (lastWrite ws k) (dictLookup d k) := by
  induction ws generalizing d with
  | nil => simp [lastWrite, firstWrite, optOr]
  | cons w ws ih =>
    rw [List.foldl_cons, ih, dictLookup_dictSet, lastWrite_cons]
    cases hl : lastWrite ws k <;> by_cases h : w.1 = k <;> simp [optOr, h]

theorem lookup_foldl_dictSetIfAbsent (ws : List (String × CaseRec))
    (d : List (String × CaseRec)) (k : String) :
    dictLookup (ws.foldl dictSetIfAbsent d) k
      = optOr (dictLookup d k) (firstWrite ws k) := by
  induction ws generalizing d with
  | nil => simp [firstWrite, optOr_none]
  | cons w ws ih =>
    rw [List.foldl_cons, ih, dictLookup_dictSetIfAbsent, firstWrite_cons, optOr_assoc]
    congr 1
    by_cases h : w.1 = k <;> simp [h, optOr]

theorem lookup_casesDict (fs : FS) (k : String) :
    dictLookup (casesDict fs) k = specRecord fs k := by
  unfold casesDict specRecord
  rw [lookup_foldl_dictSetIfAbsent, lookup_foldl_dictSetIfAbsent,
    lookup_foldl_dictSetIfAbsent, lookup_foldl_dictSet]
  simp only [dictLookup, optOr_none, optOr_assoc]

theorem mem_keys_dictSet (d : List (String × CaseRec)) (kv : String × CaseRec)
    (x : String) :
    x ∈ (dictSet d kv).map (·.1) ↔ x ∈ d.map (·.1) ∨ x = kv.1 := by
  induction d with
  | nil => simp [dictSet]
  | cons p d ih =>
    simp only [dictSet]
    by_cases h : p.1 = kv.1
    · rw [if_pos h]
      simp [← h]
      tauto
    · rw [if_neg h]
      simp [ih]
      tauto

theorem mem_keys_dictSetIfAbsent (d : List (String × CaseRec)) (kv : String × CaseRec)
    (x : String) :
    x ∈ (dictSetIfAbsent d kv).map (·.1) ↔ x ∈ d.map (·.1) ∨ x = kv.1 := by
  induction d with
  | nil => simp [dictSetIfAbsent]
  | cons p d ih =>
    simp only [dictSetIfAbsent]
    by_cases h : p.1 = kv.1
    · rw [if_pos h]
      simp [← h]
      tauto
    · rw [if_neg h]
      simp [ih]
      tauto

theorem keysNodup_dictSet (d : List (String × CaseRec)) (kv : String × CaseRec)
    (h : KeysNodup d) : KeysNodup (dictSet d kv) := by
  induction d with
  | nil => simp [dictSet, KeysNodup]
  | cons p d ih =>
    unfold KeysNodup at h ⊢
    simp only [List.map_cons, List.nodup_cons] at h
    simp only [dictSet]
    by_cases hp : p.1 = kv.1
    · rw [if_pos hp]
      simp only [List.map_cons, List.nodup_cons]
      exact ⟨hp ▸ h.1, h.2⟩
    · rw [if_neg hp]
      simp only [List.map_cons, List.nodup_cons]
      refine ⟨?_, ih h.2⟩
      intro hmem
      rcases (mem_keys_dictSet d kv p.1).mp hmem with hm | hm
      · exact h.1 hm
      · exact hp hm

theorem keysNodup_dictSetIfAbsent (d : List (String × CaseRec)) (kv : String × CaseRec)
    (h : KeysNodup d) : KeysNodup (dictSetIfAbsent d kv) := by
  induction d with
  | nil => simp [dictSetIfAbsent, KeysNodup]
  | cons p d ih =>
    unfold KeysNodup at h ⊢
    simp only [List.map_cons, List.nodup_cons] at h
    simp only [dictSetIfAbsent]
    by_cases hp : p.1 = kv.1
    · rw [if_pos hp]
      simp only [List.map_cons, List.nodup_cons]
      exact h
    · rw [if_neg hp]
      simp only [List.map_cons, List.nodup_cons]
      refine ⟨?_, ih h.2⟩
      intro hmem
      rcases (mem_keys_dictSetIfAbsent d kv p.1).mp hmem with hm | hm
      · exact h.1 hm
      · exact hp hm

theorem keysNodup_foldl_dictSet (ws : List (String × CaseRec))
    (d : List (String × CaseRec)) (h : KeysNodup d) :
    KeysNodup (ws.foldl dictSet d) := by
  induction ws generalizing d with
  | nil => exact h
  | cons w ws ih => exact ih _ (keysNodup_dictSet d w h)

theorem keysNodup_foldl_dictSetIfAbsent (ws : List (String × CaseRec))
    (d : List (String × CaseRec)) (h : KeysNodup d) :
    KeysNodup (ws.foldl dictSetIfAbsent d) := by
  induction ws generalizing d with
  | nil => exact h
  | cons w ws ih => exact ih _ (keysNodup_dictSetIfAbsent d w h)

theorem keysNodup_casesDict (fs : FS) : KeysNodup (casesDict fs) := by
  unfold casesDict
  apply keysNodup_foldl_dictSetIfAbsent
  apply keysNodup_foldl_dictSetIfAbsent
  apply keysNodup_foldl_dictSetIfAbsent
  apply keysNodup_foldl_dictSet
  simp [KeysNodup]

theorem dictLookup_eq_some_iff (d : List (String × CaseRec)) (h : KeysNodup d)
    (k : String) (v : CaseRec) :
    dictLookup d k = some v ↔ (k, v) ∈ d := by
  induction d with
  | nil => simp [dictLookup]
  | cons p d ih =>
    unfold KeysNodup at h
    simp only [List.map_cons, List.nodup_cons] at h
    by_cases h2 : p.1 = k
    · simp only [dictLookup, if_pos h2, List.mem_cons]
      constructor
      · intro e
        injection e with e
        left
        rw [Prod.ext_iff]
        exact ⟨h2.symm, e.symm⟩
      · rintro (he | hd)
        · rw [Prod.ext_iff] at he
          exact congrArg some he.2.symm
        · exact absurd (h2 ▸ List.mem_map.mpr ⟨(k, v), hd, rfl⟩) h.1
    · simp only [dictLookup, if_neg h2, List.mem_cons, ih h.2]
      constructor
      · exact Or.inr
      · rintro (he | hd)
        · rw [Prod.ext_iff] at he
          exact absurd he.1.symm h2
        · exact hd

theorem casesFilter_iff (collection tag : Option String) (p : String × CaseRec) :
    casesFilter collection tag p = true ↔ collPred collection p.2 ∧ tagPred tag p.2 := by
  unfold casesFilter collPred tagPred
  cases collection <;> cases tag <;>
    simp [List.elem_iff]

/-- C5 (amended): `cases()` returns a lexicographically sorted, duplicate-free
list whose members are exactly the names whose merged record — last manifest
seen wins within the recursive manifest scan, each later source (manifest-less
collection subdirectories, remote registry, cache) only filling absent
names — passes the optional collection and tag filters. -/
theorem pc_c5_amended (fs : FS) (collection tag : Option String) :
    (cases fs collection tag).Sorted (· ≤ ·)
    ∧ (cases fs collection tag).Nodup
    ∧ ∀ n, n ∈ cases fs collection tag ↔
        ∃ v, specRecord fs n = some v ∧ collPred collection v ∧ tagPred tag v := by
  refine ⟨?_, ?_, ?_⟩
  · unfold cases
    exact List.sorted_insertionSort _ _
  · unfold cases
    rw [(List.perm_insertionSort _ _).nodup_iff]
    exact List.Nodup.sublist ((List.filter_sublist _).map _) (keysNodup_casesDict fs)
  · intro n
    unfold cases
    rw [(List.perm_insertionSort _ _).mem_iff]
    simp only [List.mem_map, List.mem_filter]
    constructor
    · rintro ⟨p, ⟨hmem, hfl⟩, rfl⟩
      obtain ⟨hc, ht⟩ := (casesFilter_iff collection tag p).mp hfl
      refine ⟨p.2, ?_, hc, ht⟩
      rw [← lookup_casesDict]
      exact (dictLookup_eq_some_iff _ (keysNodup_casesDict fs) _ _).mpr hmem
    · rintro ⟨v, hv, hc, ht⟩
      refine ⟨(n, v), ⟨?_, ?_⟩, rfl⟩
      · exact (dictLookup_eq_some_iff _ (keysNodup_casesDict fs) _ _).mp
          (by rw [lookup_casesDict]; exact hv)
      · exact (casesFilter_iff _ _ _).mpr ⟨hc, ht⟩

/-- C5 counterexample: with case `x` carrying a manifest in `collA` (tagged
`t1`, seen first) and in `collB` (untagged, seen second), the source's
manifest pass lets the LAST manifest win, so `cases(tag="t1")` drops `x`,
while the claim's first-seen merge would keep it. -/
theorem pc_c5_counterexample :
    cases fsC5x none (some "t1") ≠ casesSpecFirstSeen fsC5x none (some "t1")
    ∧ cases fsC5x none (some "t1") = []
    ∧ casesSpecFirstSeen fsC5x none (some "t1") = ["x"] := by
  refine ⟨by decide, by decide, by decide⟩

/-- C1 counterexample: `x` is found three times across the union of bundled
collections (`collA`) and the remote registry (`collB`, `collC`), yet `load`
raises the ambiguous-REMOTE error, whose message lists only the two remote
paths and never mentions the bundled pair `bundled:collA`. -/
theorem pc_c1_counterexample :
    2 ≤ (unionPairs fsC1x "x").length
    ∧ ("bundled", "collA") ∈ unionPairs fsC1x "x"
    ∧ load fsC1x "x" = .error (.ambiguousRemote "x" ["collB/x", "collC/x"])
    ∧ strContains
        (LoadError.message (.ambiguousRemote "x" ["collB/x", "collC/x"]))
        "bundled:collA" = false := by
  refine ⟨by decide, by decide, by decide, by decide⟩

/-- C1 (amended): for a bare name (no separator, not an existing directory,
passing validation) that the global search finds two or more times across the
union of bundled collections and the remote registry, `load` raises a
`ValueError` and never picks a candidate; the error enumerates every
`source:collection` pair exactly when at most one remote entry matches, while
two or more remote matches raise the ambiguous-remote error listing only the
matching remote registry paths. -/
theorem pc_c1_amended (fs : FS) (name : String)
    (hlocal : fs.localDirs.find? (·.key == name) = none)
    (hsep : strContains name "/" = false)
    (hval : _validate_path_component name = .ok ())
    (hmany : 2 ≤ (unionPairs fs name).length) :
    ((remoteNameMatches fs.remoteCases name).length ≤ 1 →
        load fs name = .error (.ambiguous name
          ((unionPairs fs name).map (fun pr => pr.1 ++ ":" ++ pr.2))))
    ∧ (2 ≤ (remoteNameMatches fs.remoteCases name).length →
        load fs name = .error
          (.ambiguousRemote name (remoteNameMatches fs.remoteCases name))) := by
  have hload : load fs name = _bare_name_search fs name := by
    unfold load
    rw [hlocal, hsep]
    simp
  have hfind : _find_case_in_collections fs.casesTree name
      = .ok (bundledMatchesOf fs.casesTree name) := by
    unfold _find_case_in_collections
    rw [hval]
  constructor
  · intro hle
    have hgt : ¬ ((remoteNameMatches fs.remoteCases name).length > 1) := by omega
    have hr : _find_remote_case_by_name fs.remoteCases name
        = .ok (remoteNameMatches fs.remoteCases name).head? := by
      unfold _find_remote_case_by_name
      rw [if_neg hgt]
    have hbare : _bare_name_search fs name
        = _resolve_matches fs name
            (combineMatches (bundledMatchesOf fs.casesTree name)
              (remoteNameMatches fs.remoteCases name).head?) := by
      unfold _bare_name_search
      rw [hfind, hr]
    rw [hload, hbare]
    rcases hms : remoteNameMatches fs.remoteCases name with _ | ⟨rp, tl⟩
    · have hlen : 1 < ((bundledMatchesOf fs.casesTree name).map MatchT.bundled
          ++ ([] : List MatchT)).length := by
        unfold unionPairs at hmany
        rw [hms] at hmany
        simp only [List.length_append, List.length_map, List.length_nil] at hmany ⊢
        omega
      unfold combineMatches _resolve_matches
      simp only [List.head?]
      rw [if_pos hlen]
      unfold unionPairs
      rw [hms]
      simp only [List.map_map, List.map_nil, List.map_append]
      rfl
    · have htl : tl = [] := by
        have hx : (rp :: tl).length ≤ 1 := hms ▸ hle
        simp at hx
        exact hx
      subst htl
      have hlen : 1 < ((bundledMatchesOf fs.casesTree name).map MatchT.bundled
          ++ [MatchT.remote (remoteCollOf rp) rp]).length := by
        unfold unionPairs at hmany
        rw [hms] at hmany
        simp only [List.length_append, List.length_map, List.length_cons,
          List.length_nil] at hmany ⊢
        omega
      unfold combineMatches _resolve_matches
      simp only [List.head?]
      rw [if_pos hlen]
      unfold unionPairs
      rw [hms]
      simp only [List.map_map, List.map_append, List.map_cons, List.map_nil]
      rfl
  · intro hge
    have hgt : (remoteNameMatches fs.remoteCases name).length > 1 := by omega
    have hr : _find_remote_case_by_name fs.remoteCases name
        = .error (.ambiguousRemote name (remoteNameMatches fs.remoteCases name)) := by
      unfold _find_remote_case_by_name
      rw [if_pos hgt]
    rw [hload]
    unfold _bare_name_search
    rw [hfind, hr]

/-- C1 witness: a bare name bundled in two collections, with no remote match,
is refused with the ambiguity error enumerating both `source:collection`
pairs. -/
theorem pc_c1_witness :
    load fsC1w "y" = .error (.ambiguous "y"
      ((unionPairs fsC1w "y").map (fun pr => pr.1 ++ ":" ++ pr.2)))
    ∧ (unionPairs fsC1w "y").map (fun pr => pr.1 ++ ":" ++ pr.2)
        = ["bundled:collA", "bundled:collB"] := by
  refine ⟨?_, by decide⟩
  exact (pc_c1_amended fsC1w "y" (by decide) (by decide) (by decide) (by decide)).1
    (by decide)

/-- C7: `load` follows the strict priority order — an existing local
directory is loaded directly with no search; otherwise a separator-containing
input has every segment validated (a failing segment aborts the call with that
error), a bundled match under the root is loaded in preference to the remote
registry, a remote lookup happens only when no bundled directory exists, and
only inputs failing both steps fall through to the global bare-name search;
an input with no separator goes straight to the bare-name search. -/
theorem pc_c7_load_priority (fs : FS) (input : String) :
    (∀ d, fs.localDirs.find? (·.key == input) = some d →
        load fs input = .ok ⟨d.dirName, d.absPath, d.manifest.getD d.inferred, false⟩)
    ∧ (fs.localDirs.find? (·.key == input) = none → strContains input "/" = true →
        ∀ e, validateAll (pySplitSlash input) = .error e → load fs input = .error e)
    ∧ (fs.localDirs.find? (·.key == input) = none → strContains input "/" = true →
        validateAll (pySplitSlash input) = .ok () →
        ∀ m? minf, lookupBundled fs.casesTree (pySplitSlash input) = some (m?, minf) →
          load fs input = .ok ⟨(pySplitSlash input).getLastD input,
            CASES_SEG ++ pySplitSlash input, m?.getD minf, false⟩)
    ∧ (fs.localDirs.find? (·.key == input) = none → strContains input "/" = true →
        validateAll (pySplitSlash input) = .ok () →
        lookupBundled fs.casesTree (pySplitSlash input) = none →
        is_remote_case fs input = true →
          load fs input = _load_remote_case fs input)
    ∧ (fs.localDirs.find? (·.key == input) = none → strContains input "/" = true →
        validateAll (pySplitSlash input) = .ok () →
        lookupBundled fs.casesTree (pySplitSlash input) = none →
        is_remote_case fs input = false →
          load fs input = _bare_name_search fs input)
    ∧ (fs.localDirs.find? (·.key == input) = none → strContains input "/" = false →
        load fs input = _bare_name_search fs input) := by
  refine ⟨?_, ?_, ?_, ?_, ?_, ?_⟩
  · intro d h
    simp [load, h]
  · intro h1 h2 e h3
    simp [load, h1, h2, h3]
  · intro h1 h2 h3 m? minf h4
    simp [load, h1, h2, h3, h4]
  · intro h1 h2 h3 h4 h5
    simp [load, h1, h2, h3, h4, h5]
  · intro h1 h2 h3 h4 h5
    simp [load, h1, h2, h3, h4, h5]
  · intro h1 h2
    simp [load, h1, h2]

/-- C7 witness: `collA/y` resolves through the `collection/case` branch to
the bundled directory, and a bare name goes to the global search. -/
theorem pc_c7_witness :
    load fsC1w "collA/y"
      = .ok ⟨"y", CASES_SEG ++ ["collA", "y"], emptyManifest, false⟩ := by
  exact (pc_c7_load_priority fsC1w "collA/y").2.2.1 (by decide) (by decide) (by decide)
    none emptyManifest (by decide)

/-- C3: when no manifest entry matches the requested format/version/variant
(and, when neither version nor variant was requested, no default entry
exists either), the locator raises `FileNotFoundError` if and only if
`required` is true — enumerating the available variants when a variant was
requested, else the available formats when a version was requested, else all
available formats — and returns `None` when `required` is false. -/
theorem pc_c3_file_not_found (c : CaseBundle) (format : String)
    (format_version variant : Option String)
    (hentry : file_entry c.manifest (_normalize_format format) format_version variant
      = none)
    (hdefault : variant = none → format_version = none →
      get_default_file c.manifest (_normalize_format format) = none) :
    file c format format_version variant false = .ok none
    ∧ (∀ v, variant = some v →
        file c format format_version variant true = .error (.variantNotFound format v
          c.name (manifestVariants c.manifest (_normalize_format format))))
    ∧ (∀ ver, variant = none → format_version = some ver →
        file c format format_version variant true = .error (.versionNotFound format ver
          c.name (manifestFormats c.manifest)))
    ∧ (variant = none → format_version = none →
        file c format format_version variant true = .error (.formatNotFound format
          c.name (manifestFormats c.manifest)))
    ∧ (∀ f v cn av, (FileError.variantNotFound f v cn av).message
        = "File not found for format '" ++ f ++ "' with variant '" ++ v ++ "' in case '"
          ++ cn ++ "'. Available variants: " ++ String.intercalate ", " av)
    ∧ (∀ f ver cn av, (FileError.versionNotFound f ver cn av).message
        = "File not found for format '" ++ f ++ "' with version '" ++ ver
          ++ "' in case '" ++ cn ++ "'. Available formats: "
          ++ String.intercalate ", " av)
    ∧ (∀ f cn av, (FileError.formatNotFound f cn av).message
        = "File not found for format '" ++ f ++ "' in case '" ++ cn
          ++ "'. Available formats: " ++ String.intercalate ", " av) := by
  refine ⟨?_, ?_, ?_, ?_, fun _ _ _ _ => rfl, fun _ _ _ _ => rfl, fun _ _ _ => rfl⟩
  · by_cases hv : variant = none
    · subst hv
      by_cases hf : format_version = none
      · subst hf
        simp [file, hentry, hdefault rfl rfl]
      · simp [file, hentry, hf]
    · simp [file, hentry, hv]
  · intro v hv
    subst hv
    simp [file, hentry]
  · intro ver hv hf
    subst hv
    subst hf
    simp [file, hentry]
  · intro hv hf
    subst hv
    subst hf
    simp [file, hentry, hdefault rfl rfl]

/-- C3 witness: requesting a `psse_dyr` variant `genrou` of a bundle with an
empty manifest returns `None` when not required and raises the
variant-enumerating error when required (the spec's own example). -/
theorem pc_c3_witness :
    file emptyBundle "psse_dyr" none (some "genrou") false = .ok none
    ∧ file emptyBundle "psse_dyr" none (some "genrou") true
        = .error (.variantNotFound "psse_dyr" "genrou" "w" []) := by
  have h := pc_c3_file_not_found emptyBundle "psse_dyr" none (some "genrou")
    (by decide) (fun hv _ => absurd hv (by decide))
  exact ⟨h.1, h.2.1 "genrou" rfl⟩

theorem normalize_idem (f : String) :
    _normalize_format (_normalize_format f) = _normalize_format f := by
  by_cases h1 : f = "raw"
  · subst h1
    decide
  · by_cases h2 : f = "dyr"
    · subst h2
      decide
    · simp [_normalize_format, h1, h2]

theorem file_alias_general (c : CaseBundle) (f : String) (fv var : Option String)
    (req : Bool) :
    file c f fv var req
      = (file c (_normalize_format f) fv var req).mapError
          (FileError.withRequestedFormat f) := by
  unfold file
  rw [normalize_idem]
  cases hE : file_entry c.manifest (_normalize_format f) fv var with
  | some e => simp [hE, Except.mapError]
  | none =>
    rcases var with _ | v
    · rcases fv with _ | ver
      · cases hD : get_default_file c.manifest (_normalize_format f) with
        | some e => simp [hE, hD, Except.mapError]
        | none =>
          cases req <;> simp [hE, hD, Except.mapError, FileError.withRequestedFormat]
      · cases req <;> simp [hE, Except.mapError, FileError.withRequestedFormat]
    · cases req <;> simp [hE, Except.mapError, FileError.withRequestedFormat]

/-- C4 (amended): the locator treats `"raw"` as `"psse_raw"` and `"dyr"` as
`"psse_dyr"` — same path on success, and on failure the same error class
enumerating the same alternatives, differing only in that the message echoes
the requested format string as given; other formats pass through unchanged. -/
theorem pc_c4_amended (c : CaseBundle) (fv var : Option String) (req : Bool) :
    file c "raw" fv var req
      = (file c "psse_raw" fv var req).mapError (FileError.withRequestedFormat "raw")
    ∧ file c "dyr" fv var req
      = (file c "psse_dyr" fv var req).mapError (FileError.withRequestedFormat "dyr")
    ∧ ∀ f, f ≠ "raw" → f ≠ "dyr" → _normalize_format f = f := by
  refine ⟨file_alias_general c "raw" fv var req, file_alias_general c "dyr" fv var req,
    ?_⟩
  intro f h1 h2
  simp [_normalize_format, h1, h2]

/-- C4 counterexample: on a bundle with no files, `file(c, "raw")` and
`file(c, "psse_raw")` do NOT return the very same result — both raise
`FileNotFoundError`, but each message echoes the format string it was given. -/
theorem pc_c4_counterexample :
    file emptyBundle "raw" none none true ≠ file emptyBundle "psse_raw" none none true
    ∧ file emptyBundle "raw" none none true
        = .error (.formatNotFound "raw" "w" [])
    ∧ file emptyBundle "psse_raw" none none true
        = .error (.formatNotFound "psse_raw" "w" []) := by
  refine ⟨by decide, by decide, by decide⟩

/-- C4 witness: a non-alias format is passed through unchanged. -/
theorem pc_c4_witness : _normalize_format "matpower" = "matpower" :=
  (pc_c4_amended emptyBundle none none true).2.2 "matpower" (by decide) (by decide)

theorem diskLookup_diskSet (disk : List (List String × List (String × Nat)))
    (p : List String) (files : List (String × Nat)) :
    diskLookup (diskSet disk p files) p = some files := by
  induction disk with
  | nil => simp [diskSet, diskLookup]
  | cons q d ih =>
    simp only [diskSet]
    by_cases h : q.1 = p
    · simp [diskLookup, h]
    · simp [diskLookup, h, ih]

/-- C6: when the resolved case's destination `dest/case_name` already exists,
`export_case` with `overwrite=False` raises `FileExistsError` and leaves the
destination untouched (the existence check precedes any mutation), while
`overwrite=True` replaces the destination wholesale: afterwards it holds
exactly the source directory's files, with no remnant of the old contents. -/
theorem pc_c6_export (w : ExportWorld) (case_name : String) (dest : List String)
    (c : CaseBundle) (hload : load w.fs case_name = .ok c)
    (old : List (String × Nat))
    (hex : diskLookup w.disk (dest ++ [c.name]) = some old) :
    export_case w case_name dest false
      = (.error (.alreadyExists ("Directory exists: " ++ joinPath (dest ++ [c.name])
          ++ "\nUse overwrite=True to replace existing directory")), w.disk)
    ∧ (export_case w case_name dest true).1 = .ok (joinPath (dest ++ [c.name]))
    ∧ diskLookup (export_case w case_name dest true).2 (dest ++ [c.name])
        = some ((diskLookup w.disk c.dir).getD []) := by
  refine ⟨?_, ?_, ?_⟩
  · simp [export_case, hload, hex]
  · simp [export_case, hload, hex]
  · simp [export_case, hload, hex, diskLookup_diskSet]

/-- C6 witness: exporting the bundled case `ez` onto an occupied `out/ez`
fails without `overwrite` (destination unchanged) and, with `overwrite`,
leaves `out/ez` holding exactly the source's single file. -/
theorem pc_c6_witness :
    export_case ewC6 "ez" ["out"] false
      = (.error (.alreadyExists
          "Directory exists: out/ez\nUse overwrite=True to replace existing directory"),
         ewC6.disk)
    ∧ diskLookup (export_case ewC6 "ez" ["out"] true).2 ["out", "ez"]
        = some [("ez.raw", 10)] := by
  have h := pc_c6_export ewC6 "ez" ["out"]
    ⟨"ez", CASES_SEG ++ ["ez"], emptyManifest, false⟩ (by decide)
    [("old.txt", 5), ("stale.raw", 7)] (by decide)
  exact ⟨h.1, h.2.2⟩

/-! # Claims -/

/-- C2: the path-component validator raises an invalid-path `ValueError`
exactly when its argument is empty, contains `..`, contains a path separator
(`/` or `\`), or is an absolute path / drive-letter pattern; in particular it
rejects `"../etc"`, `"a/b"`, `"/abs"` and accepts `"ieee14"`. -/
theorem pc_c2_validate_component :
    (∀ c : String,
      (_validate_path_component c ≠ .ok ()) ↔
        (c = "" ∨ ['.', '.'] <:+: c.data ∨ '/' ∈ c.data ∨ '\\' ∈ c.data
          ∨ c.data.head? = some '/' ∨ c.data.get? 1 = some ':'))
    ∧ _validate_path_component "../etc" ≠ .ok ()
    ∧ _validate_path_component "a/b" ≠ .ok ()
    ∧ _validate_path_component "/abs" ≠ .ok ()
    ∧ _validate_path_component "ieee14" = .ok () := by
  refine ⟨?_, by decide, by decide, by decide, by decide⟩
  intro c
  unfold _validate_path_component
  have hdd : strContains c ".." = true ↔ ['.', '.'] <:+: c.data := containsSub_iff _ _
  have hs : strContains c "/" = true ↔ '/' ∈ c.data := containsSub_singleton_iff _ _
  have hb : strContains c "\\" = true ↔ '\\' ∈ c.data := containsSub_singleton_iff _ _
  have hh : pyStartsWith c "/" = true ↔ c.data.head? = some '/' :=
    startsWithList_singleton_iff _ _
  have hc : secondCharColon c = true ↔ c.data.get? 1 = some ':' := secondCharColon_iff c
  split_ifs with h0 h1 h2
  · simp [h0]
  · simp only [Bool.or_eq_true] at h1
    simp only [ne_eq, reduceCtorEq, not_false_iff, true_iff]
    rcases h1 with (h | h) | h
    · exact Or.inr (Or.inl (hdd.mp h))
    · exact Or.inr (Or.inr (Or.inl (hs.mp h)))
    · exact Or.inr (Or.inr (Or.inr (Or.inl (hb.mp h))))
  · simp only [Bool.or_eq_true] at h2
    simp only [ne_eq, reduceCtorEq, not_false_iff, true_iff]
    rcases h2 with h | h
    · exact Or.inr (Or.inr (Or.inr (Or.inr (Or.inl (hh.mp h)))))
    · exact Or.inr (Or.inr (Or.inr (Or.inr (Or.inr (hc.mp h)))))
  · constructor
    · intro h; exact absurd rfl h
    · intro h
      exfalso
      rcases h with h | h | h | h | h | h
      · exact h0 h
      · exact h1 (by simp [Bool.or_eq_true, hdd.mpr h])
      · exact h1 (by simp [Bool.or_eq_true, hs.mpr h])
      · exact h1 (by simp [Bool.or_eq_true, hb.mpr h])
      · exact h2 (by simp [Bool.or_eq_true, hh.mpr h])
      · exact h2 (by simp [Bool.or_eq_true, hc.mpr h])

/-- C8: `_is_safe_subpath` is total (returns a Bool, never an exception): it
is true exactly when both paths resolve and the resolved child descends from
the resolved parent; a resolution error on either side yields false; in
particular both a symlink pointing outside the root and a failing resolution
yield false. -/
theorem pc_c8_is_safe_subpath :
    (∀ (resolve : List String → Option (List String)) (child parent : List String),
      _is_safe_subpath resolve child parent = true ↔
        ∃ c p, resolve child = some c ∧ resolve parent = some p ∧ p <+: c)
    ∧ (∀ (resolve : List String → Option (List String)) (child parent : List String),
        resolve child = none ∨ resolve parent = none →
          _is_safe_subpath resolve child parent = false)
    ∧ _is_safe_subpath symlinkResolve ["root", "link"] ["root"] = false
    ∧ _is_safe_subpath brokenResolve ["broken"] ["root"] = false := by
  refine ⟨?_, ?_, by decide, by decide⟩
  · intro resolve child parent
    unfold _is_safe_subpath
    cases hc : resolve child with
    | none => simp [hc]
    | some c =>
      cases hp : resolve parent with
      | none => simp [hc, hp]
      | some p => simp [hc, hp, List.isPrefixOf_iff_prefix]
  · intro resolve child parent h
    unfold _is_safe_subpath
    rcases h with h | h
    · simp [h]
    · cases hc : resolve child with
      | none => simp
      | some c => simp [h]

/-- C8 witness: a path whose resolution raises makes the check return false
rather than raise. -/
theorem pc_c8_witness :
    _is_safe_subpath brokenResolve ["x"] ["broken"] = false :=
  pc_c8_is_safe_subpath.2.1 brokenResolve ["x"] ["broken"] (Or.inr rfl)

/-- C10: for a bundle whose manifest has no non-empty `collection` field, the
`collection` property is inferred from the layout: the parent directory name,
except `None` when that parent is the legacy flat `"cases"` top level. -/
theorem pc_c10_collection_inference (b : CaseBundle)
    (h : b.manifest.collection = none ∨ b.manifest.collection = some "") :
    (parentName b.dir = "cases" → CaseBundle.collection b = none)
    ∧ (parentName b.dir ≠ "cases" → CaseBundle.collection b = some (parentName b.dir)) := by
  have ht : truthyCollection b.manifest.collection = false := by
    rcases h with h | h <;> simp [truthyCollection, h]
  constructor
  · intro hp
    simp [CaseBundle.collection, ht, hp]
  · intro hp
    simp [CaseBundle.collection, ht, hp]

/-- C10 witness: a bundle at `.../cases/ieee-transmission/ieee14` with no
manifest collection infers collection `ieee-transmission`; one directly under
`.../cases` infers none. -/
theorem pc_c10_witness :
    CaseBundle.collection
      ⟨"ieee14", ["powerfulcases", "cases", "ieee-transmission", "ieee14"],
        emptyManifest, false⟩ = some "ieee-transmission"
    ∧ CaseBundle.collection
      ⟨"npcc", ["powerfulcases", "cases", "npcc"], emptyManifest, false⟩ = none := by
  constructor
  · exact (pc_c10_collection_inference _ (Or.inl rfl)).2 (by decide)
  · exact (pc_c10_collection_inference _ (Or.inl rfl)).1 (by decide)

/-- C9: every legacy per-case accessor returns exactly the result of `load`
applied to its case name on the same world state, and differs only in
emitting the deprecation warning on the first call per case name per process
(tracked in the warned set); each named accessor is the generic closure
applied to its name. -/
theorem pc_c9_legacy_accessors :
    (∀ (name : String) (warned : List String) (fs : FS),
       (legacyCaseCall name warned fs).1 = load fs name)
    ∧ (∀ (name : String) (warned : List String) (fs : FS),
       ((legacyCaseCall name warned fs).2.1 = [deprecationMessage name]
         ↔ warned.contains name = false))
    ∧ (∀ (name : String) (warned : List String) (fs : FS),
       ((legacyCaseCall name warned fs).2.1 = [] ↔ warned.contains name = true))
    ∧ (∀ (name : String) (warned : List String) (fs : FS),
       (legacyCaseCall name ((legacyCaseCall name warned fs).2.2) fs).2.1 = [])
    ∧ ieee14 = legacyCaseCall "ieee14" ∧ ieee39 = legacyCaseCall "ieee39"
    ∧ ieee118 = legacyCaseCall "ieee118" ∧ ACTIVSg2000 = legacyCaseCall "ACTIVSg2000"
    ∧ ACTIVSg10k = legacyCaseCall "ACTIVSg10k" ∧ ACTIVSg70k = legacyCaseCall "ACTIVSg70k"
    ∧ case5 = legacyCaseCall "case5" ∧ case9 = legacyCaseCall "case9"
    ∧ npcc = legacyCaseCall "npcc" ∧ two_bus_branch = legacyCaseCall "two_bus_branch"
    ∧ two_bus_transformer = legacyCaseCall "two_bus_transformer"
    ∧ ieee14_fault = legacyCaseCall "ieee14_fault"
    ∧ ieee14_island = legacyCaseCall "ieee14_island"
    ∧ ieee39_nopq31 = legacyCaseCall "ieee39_nopq31"
    ∧ ieee39_rt = legacyCaseCall "ieee39_rt" := by
  refine ⟨?_, ?_, ?_, ?_, rfl, rfl, rfl, rfl, rfl, rfl, rfl, rfl, rfl, rfl, rfl, rfl,
    rfl, rfl, rfl⟩
  · intro name warned fs
    unfold legacyCaseCall
    by_cases h : name ∈ warned <;> simp [h, List.elem_iff]
  · intro name warned fs
    unfold legacyCaseCall
    by_cases h : name ∈ warned <;> simp [h, List.elem_iff, deprecationMessage]
  · intro name warned fs
    unfold legacyCaseCall
    by_cases h : name ∈ warned <;> simp [h, List.elem_iff]
  · intro name warned fs
    unfold legacyCaseCall
    by_cases h : name ∈ warned <;> simp [h, List.elem_iff]

end PowerfulCases
